import Mathlib

/-!
Verification of the volume cropping and region-extraction pipeline of
`datasets/preprocess_data.py` (MedicalImageSegmentation-Pytorch).

The shallow embedding below translates the source functions
`crop_to_boxes_of_interset_cc` and the per-volume body of `create_dataset`
into executable Lean definitions.  Volumes are dense 3D integer arrays,
modelled as a shape triple together with a value function on coordinates;
the result of the external 3D connected-component labeling call
(`cc3d.connected_components`) is passed to the embedded pipeline as an
explicit labeling function plus the list of component labels it yields,
constrained in theorems by the defining properties of a 26-connectivity
component labeling.
-/

set_option autoImplicit false

/-! ## Definitions: the shallow embedding -/

/-- Coordinates in (depth, height, width) order, mirroring the numpy axis
order of the source arrays. -/
abbrev Coord := Nat × Nat × Nat

/-- Python strings are modelled as lists of characters. -/
abbrev Str := List Char

/-- Convert a Lean string literal to the embedded string type. -/
def strL (s : String) : Str := s.data

/-- A dense 3D array: a shape and a total value function.  Reads outside
the shape are never performed by the embedded pipeline on well-formed
inputs. -/
structure Volume where
  dims : Coord
  val : Coord → Int

/-- A 3D box of half-open integer intervals `[lo, hi)`, one per axis. -/
structure Box3 where
  lo : Coord
  hi : Coord
deriving DecidableEq

/-- Membership of a coordinate in a half-open box. -/
def inBox (b : Box3) (v : Coord) : Prop :=
  b.lo.1 ≤ v.1 ∧ v.1 < b.hi.1 ∧
  b.lo.2.1 ≤ v.2.1 ∧ v.2.1 < b.hi.2.1 ∧
  b.lo.2.2 ≤ v.2.2 ∧ v.2.2 < b.hi.2.2

instance (b : Box3) (v : Coord) : Decidable (inBox b v) := by
  unfold inBox; infer_instance

/-- Coordinate strictly inside the array shape. -/
def inBounds (dims : Coord) (v : Coord) : Prop :=
  v.1 < dims.1 ∧ v.2.1 < dims.2.1 ∧ v.2.2 < dims.2.2

instance (dims : Coord) (v : Coord) : Decidable (inBounds dims v) := by
  unfold inBounds; infer_instance

/-- All coordinates of a box, in lexicographic (z, y, x) scan order, the
order in which numpy enumerates array entries. -/
def boxCoordList (b : Box3) : List Coord :=
  (List.range' b.lo.1 (b.hi.1 - b.lo.1)).flatMap fun z =>
    (List.range' b.lo.2.1 (b.hi.2.1 - b.lo.2.1)).flatMap fun y =>
      (List.range' b.lo.2.2 (b.hi.2.2 - b.lo.2.2)).map fun x => (z, y, x)

/-- The minimum of a list of naturals (`ndarray.min()`); `0` on the empty
list, which the pipeline never queries. -/
def listMin : List Nat → Nat
  | [] => 0
  | [a] => a
  | a :: b :: rest => min a (listMin (b :: rest))

/-- The maximum of a list of naturals (`ndarray.max()`); `0` on the empty
list, which the pipeline never queries. -/
def listMax : List Nat → Nat
  | [] => 0
  | a :: rest => max a (listMax rest)

/-- Configuration record `cropping_params` (lines 14-30).  The field names
keep the source's spelling, including the `lable` typo.  `mask_dilation`
is carried but — exactly as in the source, where the result of
`binary_dilation` on line 97 is discarded — it never influences the
pipeline. -/
structure CropParams where
  croppingLable : Int
  sliceMargins : Coord
  allowedPercOtherBlobs : ℚ
  maskDilation : Nat

/-- Line 96: the binary mask `labels_volume == params.cropping_lable`. -/
def maskOf (labels : Volume) (lab : Int) (v : Coord) : Bool :=
  decide (labels.val v = lab)

/-- 26-connectivity adjacency (face, edge and corner neighbours), the
connectivity used by `cc3d.connected_components` by default. -/
def adj26 (a b : Coord) : Prop :=
  a ≠ b ∧ Nat.dist a.1 b.1 ≤ 1 ∧ Nat.dist a.2.1 b.2.1 ≤ 1 ∧
    Nat.dist a.2.2 b.2.2 ≤ 1

/-- The voxels of component `l` of the labeling `cc` (line 101:
`np.where(image)` for `image = (cc == label)`), enumerated over the array
extent in scan order. -/
def blobList (dims : Coord) (cc : Coord → Nat) (l : Nat) : List Coord :=
  (boxCoordList ⟨(0, 0, 0), dims⟩).filter fun v => decide (cc v = l)

/-- Line 102: the tight bounding box `slice(x.min(), x.max() + 1)` per
axis over the component's voxel coordinates. -/
def tightBox (dims : Coord) (cc : Coord → Nat) (l : Nat) : Box3 :=
  ⟨(listMin ((blobList dims cc l).map (·.1)),
      listMin ((blobList dims cc l).map (·.2.1)),
      listMin ((blobList dims cc l).map (·.2.2))),
   (listMax ((blobList dims cc l).map (·.1)) + 1,
      listMax ((blobList dims cc l).map (·.2.1)) + 1,
      listMax ((blobList dims cc l).map (·.2.2)) + 1)⟩

/-- `cc[relevant_ranges].size`: the number of voxels in the box. -/
def boxTotal (b : Box3) : Nat := (boxCoordList b).length

/-- The count of one component id inside a box (one entry of the `counts`
array returned by `np.unique(..., return_counts=True)` on line 103). -/
def countEq (b : Box3) (cc : Coord → Nat) (v : Nat) : Nat :=
  ((boxCoordList b).filter fun c => decide (cc c = v)).length

/-- `values[0]`: the smallest component id occurring in the box
(`np.unique` returns values in ascending order). -/
def minValIn (b : Box3) (cc : Coord → Nat) : Nat :=
  listMin ((boxCoordList b).map cc)

/-- Lines 103-105: `np.delete(counts, [0, label_idx]).sum()` — the total
count minus the count at index 0 (the smallest value present) and minus
the count of the blob's own label (`np.delete` drops a duplicated index
only once, so when the own label is the smallest value its count is
removed a single time). -/
def otherOccurrences (b : Box3) (cc : Coord → Nat) (l : Nat) : Nat :=
  if minValIn b cc = l then boxTotal b - countEq b cc l
  else boxTotal b - countEq b cc (minValIn b cc) - countEq b cc l

/-- Line 108: the skip test
`other_non_bg_occurances / cc[relevant_ranges].size > params.allowed_perc_other_blobs`. -/
def rejectedQ (b : Box3) (cc : Coord → Nat) (l : Nat) (allowed : ℚ) : Bool :=
  decide ((otherOccurrences b cc l : ℚ) / (boxTotal b : ℚ) > allowed)

/-- The component labels that survive the overlap filter, in the order
`cc3d.each` yields them. -/
def acceptedLabels (dims : Coord) (cc : Coord → Nat) (allowed : ℚ)
    (ls : List Nat) : List Nat :=
  ls.filter fun l => ! rejectedQ (tightBox dims cc l) cc l allowed

/-- Lines 111-113: the margined ranges
`slice(max(0, x.min() - margins[i]), x.max() + margins[i])`.  Note the
upper bound is `x.max() + margin`, not `x.max() + 1 + margin`: the stop
of the half-open tight box is `x.max() + 1`, so the margined stop is the
tight stop minus one plus the margin. -/
def margedBox (dims : Coord) (cc : Coord → Nat) (l : Nat) (m : Coord) :
    Box3 :=
  ⟨((tightBox dims cc l).lo.1 - m.1, (tightBox dims cc l).lo.2.1 - m.2.1,
      (tightBox dims cc l).lo.2.2 - m.2.2),
   ((tightBox dims cc l).hi.1 - 1 + m.1,
      (tightBox dims cc l).hi.2.1 - 1 + m.2.1,
      (tightBox dims cc l).hi.2.2 - 1 + m.2.2)⟩

/-- Decimal digits of a natural number, for the f-string pieces. -/
def natToChars (n : Nat) : Str := Nat.toDigits 10 n

/-- Line 114: `"-".join([str((x.stop - x.start) // 2) for x in ranges])`. -/
def locStr (b : Box3) : Str :=
  natToChars ((b.hi.1 - b.lo.1) / 2) ++ '-' ::
    natToChars ((b.hi.2.1 - b.lo.2.1) / 2) ++ '-' ::
      natToChars ((b.hi.2.2 - b.lo.2.2) / 2)

/-- Numpy basic slicing `volume[lo1:hi1, lo2:hi2, lo3:hi3]`: the stop
indices are silently clamped to the axis extents (the source never clamps
the margined stop itself), and the resulting array views the source at
the offset `lo`. -/
def cropVol (v : Volume) (b : Box3) : Volume :=
  ⟨(min b.hi.1 v.dims.1 - b.lo.1, min b.hi.2.1 v.dims.2.1 - b.lo.2.1,
      min b.hi.2.2 v.dims.2.2 - b.lo.2.2),
   fun c => v.val (b.lo.1 + c.1, b.lo.2.1 + c.2.1, b.lo.2.2 + c.2.2)⟩

/-- Lines 93-117: `crop_to_boxes_of_interset_cc`.  The external calls are
made explicit inputs: `cc` is the component labeling that
`cc3d.connected_components` returns for the binary mask of
`params.cropping_lable` (the *undilated* mask — line 97 discards the
result of `binary_dilation`), and `ls` is the sequence of component
labels that `cc3d.each` iterates.  Each surviving component yields the
pair of cropped arrays plus its location tag. -/
def crop_to_boxes_of_interset_cc (img labels : Volume) (params : CropParams)
    (cc : Coord → Nat) (ls : List Nat) : List (Volume × Volume × Str) :=
  (acceptedLabels labels.dims cc params.allowedPercOtherBlobs ls).map fun l =>
    (cropVol img (margedBox labels.dims cc l params.sliceMargins),
     cropVol labels (margedBox labels.dims cc l params.sliceMargins),
     locStr (margedBox labels.dims cc l params.sliceMargins))

/-- Spec-side definition, taken from the claim's wording: the number of
voxels inside a box that carry a component id other than background `0`
and other than the blob's own component id `l`. -/
def specOtherCount (b : Box3) (cc : Coord → Nat) (l : Nat) : Nat :=
  ((boxCoordList b).filter fun v => decide (cc v ≠ 0 ∧ cc v ≠ l)).length

/-- A labeling with two isolated single-voxel components, used as a
concrete instance of the connected-component axioms. -/
def ccW4 : Coord → Nat := fun v =>
  if v = (0, 0, 0) then 1 else if v = (0, 0, 2) then 2 else 0

/-- A single-voxel component on a single-voxel volume. -/
def ccC2 : Coord → Nat := fun v => if v = (0, 0, 0) then 1 else 0

/-- The tight region `[10:20, 30:40, 30:40]` of the scenario. -/
def boxB0 : Box3 := ⟨(10, 30, 30), (20, 40, 40)⟩

/-- The scenario label volume: shape `(50,100,100)`, a single connected
region of label `2` on `[10:20, 30:40, 30:40]`, `0` elsewhere. -/
def sLabels : Volume :=
  ⟨(50, 100, 100), fun v => if inBox boxB0 v then 2 else 0⟩

/-- The scenario cropping parameters: `cropping_label = 2`,
`slice_margins = (1,2,2)`, `allowed_perc_other_blobs = 0.5`. -/
def scenParams : CropParams := ⟨2, (1, 2, 2), 1 / 2, 0⟩

/-- The canonical component labeling of the scenario mask: one component,
id `1`, on the region. -/
def ccW1 : Coord → Nat := fun v => if inBox boxB0 v then 1 else 0

/-- A scenario CT volume (contents are irrelevant to the boxes). -/
def ctW1 : Volume := ⟨(50, 100, 100), fun _ => 0⟩

/-- Lines 10-11 and 152: `np.clip(ct_array, IMG_MIN_VAL, IMG_MAX_VAL)`
elementwise, with the fixed range `[-512, 512]`. -/
def clipHU (v : Int) : Int := max (-512) (min v 512)

/-- Lines 163-165: the two sequential masked assignments
`seg_array[seg_array == 1] = 0` then `seg_array[seg_array == 2] = 1`.
After the first statement no voxel holds `1` any more, so the second
renames exactly the original `2`s. -/
def remapLiver (v : Int) : Int := if v = 1 then 0 else if v = 2 then 1 else v

/-- Elementwise application of an intensity transform to a volume. -/
def mapVol (f : Int → Int) (v : Volume) : Volume :=
  ⟨v.dims, fun c => f (v.val c)⟩

/-- Line 174: `np.any(ct_array.shape < np.array(min_sizes))` — true when
some axis is strictly shorter than the required minimum. -/
def sizeTooSmall (dims minS : Coord) : Bool :=
  decide (dims.1 < minS.1) || decide (dims.2.1 < minS.2.1) ||
    decide (dims.2.2 < minS.2.2)

/-- Whether the first string is an initial segment of the second. -/
def headMatch : Str → Str → Bool
  | [], _ => true
  | _ :: _, [] => false
  | a :: as, b :: bs => a == b && headMatch as bs

/-- Worker for `strReplace`, structurally recursive on a fuel bound
(always called with the subject's length, which suffices because every
step consumes at least one character). -/
def strReplaceAux (pat rep : Str) : Nat → Str → Str
  | 0, s => s
  | _ + 1, [] => []
  | fuel + 1, c :: rest =>
    if !pat.isEmpty && headMatch pat (c :: rest) then
      rep ++ strReplaceAux pat rep fuel (List.drop (pat.length - 1) rest)
    else
      c :: strReplaceAux pat rep fuel rest

/-- Python `str.replace`: replace every leftmost non-overlapping
occurrence of `pat` by `rep`.  (All call sites pass a nonempty pattern;
for an empty pattern this model is the identity.) -/
def strReplace (pat rep s : Str) : Str := strReplaceAux pat rep s.length s

/-- Whether `pat` occurs as a contiguous substring. -/
def occursIn (pat : Str) : Str → Bool
  | [] => pat == []
  | c :: rest => headMatch pat (c :: rest) || occursIn pat rest

/-- The two fixed substitution strings of lines 145 and 186. -/
def patVol : Str := strL "volume"

def patSeg : Str := strL "segmentation"

/-- One source CT/label file pair: the CT file's base name (stem) and the
two loaded arrays. -/
structure SrcPair where
  base : Str
  ct : Volume
  seg : Volume

/-- The configuration surface of `create_dataset` consumed per volume. -/
structure PipeCfg where
  sliceSizeMm : ℚ
  spatialScale : ℚ
  minSizes : Coord
  cropParams : Option CropParams
  removeLiver : Bool

/-- One persisted crop: the two `np.save` targets of lines 185-186. -/
structure SaveRec where
  ctPath : Str
  ctArr : Volume
  segPath : Str
  segArr : Volume

/-- Lines 178-183: build the output file name.  A nonempty location tag
wins; otherwise the enumeration index disambiguates. -/
def fnameFor (base : Str) (idx : Nat) (loc : Str) : Str :=
  if loc ≠ [] then base ++ strL "-(" ++ loc ++ strL ").npy"
  else base ++ strL "-" ++ natToChars idx ++ strL ".npy"

/-- Lines 155-158: crop to blobs when `crop_params` is given, otherwise a
single whole-volume pseudo-crop with an empty location tag.  The CT array
has already been clipped (line 152). -/
def cropsOf (cfg : PipeCfg) (cc : Coord → Nat) (ls : List Nat)
    (p : SrcPair) : List (Volume × Volume × Str) :=
  match cfg.cropParams with
  | some cp => crop_to_boxes_of_interset_cc (mapVol clipHU p.ct) p.seg cp cc ls
  | none => [(mapVol clipHU p.ct, p.seg, [])]

/-- Lines 160-186, body of the per-crop loop: optional label remapping,
optional resampling (the `ndimage.zoom` calls are abstracted by the
`zoomCT`/`zoomSeg` parameters and are skipped exactly when
`slice_size_mm = 1` and `spatial_scale = 1`, line 168), the minimum-size
gate, and the pair of save targets, where the label path substitutes
`"volume" -> "segmentation"` in the CT path (line 186). -/
def stepOf (cfg : PipeCfg) (outDir : Str) (zoomCT zoomSeg : Volume → Volume)
    (base : Str) (e : Nat × Volume × Volume × Str) : Option SaveRec :=
  if sizeTooSmall
      (if cfg.sliceSizeMm ≠ 1 ∨ cfg.spatialScale ≠ 1 then zoomCT e.2.1
       else e.2.1).dims cfg.minSizes then none
  else some
    ⟨outDir ++ strL "/ct/" ++ fnameFor base e.1 e.2.2.2,
     (if cfg.sliceSizeMm ≠ 1 ∨ cfg.spatialScale ≠ 1 then zoomCT e.2.1
      else e.2.1),
     strReplace patVol patSeg (outDir ++ strL "/ct/" ++ fnameFor base e.1
       e.2.2.2),
     (if cfg.sliceSizeMm ≠ 1 ∨ cfg.spatialScale ≠ 1 then
        zoomSeg (if cfg.removeLiver then mapVol remapLiver e.2.2.1
          else e.2.2.1)
      else (if cfg.removeLiver then mapVol remapLiver e.2.2.1
        else e.2.2.1))⟩

/-- Lines 141-186, one iteration of the batch loop: the shape assert on
line 148 (a failed assert halts the run), then all per-crop work. -/
def processVolume (cfg : PipeCfg) (outDir : Str)
    (zoomCT zoomSeg : Volume → Volume) (cc : Coord → Nat) (ls : List Nat)
    (p : SrcPair) : Except Unit (List SaveRec) :=
  if p.seg.dims = p.ct.dims then
    Except.ok ((cropsOf cfg cc ls p).enum.filterMap
      (stepOf cfg outDir zoomCT zoomSeg p.base))
  else Except.error ()

/-- One volume's worth of batch input: the labeling oracle for its mask
and the file pair. -/
structure VolInput where
  cc : Coord → Nat
  ls : List Nat
  pair : SrcPair

/-- The batch loop of `create_dataset`: process the directory in order;
a failed shape assert aborts the whole run (the `Bool` flag records the
abort), discarding nothing already saved but producing no further
output. -/
def processAll (cfg : PipeCfg) (outDir : Str)
    (zoomCT zoomSeg : Volume → Volume) :
    List VolInput → List SaveRec × Bool
  | [] => ([], false)
  | t :: rest =>
    match processVolume cfg outDir zoomCT zoomSeg t.cc t.ls t.pair with
    | Except.ok recs =>
      (recs ++ (processAll cfg outDir zoomCT zoomSeg rest).1,
        (processAll cfg outDir zoomCT zoomSeg rest).2)
    | Except.error _ => ([], true)

/-- The two `np.save` calls of one crop, in program order. -/
def writesOf (r : SaveRec) : List (Str × Volume) :=
  [(r.ctPath, r.ctArr), (r.segPath, r.segArr)]

/-- The file a path holds after a sequence of writes: the last write to
that path wins. -/
def lastWrite (ws : List (Str × Volume)) (p : Str) : Option Volume :=
  (ws.reverse.find? fun w => decide (w.1 = p)).map (·.2)

/-- One iteration of `scipy.ndimage.morphology.binary_dilation` with the
default cross-shaped (faces-only) structuring element: a voxel of the
output grid is set when it or one of its six face neighbours inside the
grid is set.  This models the external call on line 97 whose result the
source discards. -/
def dilate1 (dims : Coord) (m : Coord → Bool) (v : Coord) : Bool :=
  decide (inBounds dims v) &&
    (m v ||
     m (v.1 + 1, v.2.1, v.2.2) ||
     (decide (0 < v.1) && m (v.1 - 1, v.2.1, v.2.2)) ||
     m (v.1, v.2.1 + 1, v.2.2) ||
     (decide (0 < v.2.1) && m (v.1, v.2.1 - 1, v.2.2)) ||
     m (v.1, v.2.1, v.2.2 + 1) ||
     (decide (0 < v.2.2) && m (v.1, v.2.1, v.2.2 - 1)))

/-- Lines 96-99 dataflow: the mask actually handed to
`cc3d.connected_components` is the *undilated* binary mask — line 97
computes `binary_dilation(binary_volume, iterations=params.mask_dilation)`
but never rebinds the result, so the labeling input is `binary_volume`
itself regardless of `mask_dilation`. -/
def maskUsedForCC (labels : Volume) (params : CropParams) (v : Coord) :
    Bool :=
  maskOf labels params.croppingLable v

/-- A trivial (empty-mask) labeling, for whole-volume runs where
`crop_params is None` and the labeling is never consulted. -/
def ccTriv : Coord → Nat := fun _ => 0

/-- A no-crop configuration: no resampling, minimum sizes `(1,1,1)`,
`crop_params = None`, `remove_liver_label = False`. -/
def cfgW7 : PipeCfg := ⟨1, 1, (1, 1, 1), none, false⟩

def volW7 : Volume := ⟨(2, 2, 2), fun _ => 0⟩

def pairW7 : SrcPair := ⟨strL "scan", volW7, volW7⟩

/-- The single save record the no-crop run produces. -/
def recW7 : SaveRec :=
  ⟨strL "out/ct/scan-0.npy", mapVol clipHU volW7,
   strL "out/ct/scan-0.npy", volW7⟩

/-- A remove-liver configuration with no cropping and no resampling. -/
def cfgW6 : PipeCfg := ⟨1, 1, (1, 1, 1), none, true⟩

def segW6 : Volume := ⟨(1, 1, 1), fun _ => 2⟩

def pairW6 : SrcPair := ⟨strL "scan", ⟨(1, 1, 1), fun _ => 0⟩, segW6⟩

def recW6 : SaveRec :=
  ⟨strL "out/ct/scan-0.npy", mapVol clipHU pairW6.ct,
   strL "out/ct/scan-0.npy", mapVol remapLiver segW6⟩

/-- A batch input whose label array shape differs from its CT shape. -/
def badW9 : VolInput :=
  ⟨ccTriv, [], ⟨strL "scan", ⟨(1, 1, 1), fun _ => 0⟩,
    ⟨(1, 1, 2), fun _ => 0⟩⟩⟩

/-- Two isolated one-voxel blobs of the cropping label, placed so that
their margined boxes have identical per-axis sizes. -/
def labels8 : Volume :=
  ⟨(3, 3, 7), fun v => if v = (1, 1, 1) ∨ v = (1, 1, 5) then 1 else 0⟩

/-- The component labeling of the two blobs (they are not 26-adjacent). -/
def cc8 : Coord → Nat := fun v =>
  if v = (1, 1, 1) then 1 else if v = (1, 1, 5) then 2 else 0

def params8 : CropParams := ⟨1, (1, 1, 1), 1 / 2, 0⟩

def cfg8 : PipeCfg := ⟨1, 1, (1, 1, 1), some params8, false⟩

def pair8 : SrcPair := ⟨strL "scan", ⟨(3, 3, 7), fun _ => 0⟩, labels8⟩

/-- A 1×1×3 label volume with the cropping label at the two ends and a
one-voxel gap in the middle — exactly the situation `mask_dilation` is
documented to bridge. -/
def labels3 : Volume :=
  ⟨(1, 1, 3), fun v => if v = (0, 0, 0) ∨ v = (0, 0, 2) then 1 else 0⟩

/-- `cropping_lable = 1`, `mask_dilation = 1 > 0`. -/
def params3 : CropParams := ⟨1, (0, 0, 0), 1 / 2, 1⟩

def ct3 : Volume := ⟨(1, 1, 3), fun _ => 0⟩

/-- The component labeling of the undilated mask: two separate one-voxel
components (the end voxels are not 26-adjacent). -/
def cc3undil : Coord → Nat := fun v =>
  if v = (0, 0, 0) then 1 else if v = (0, 0, 2) then 2 else 0

/-- The component labeling of the once-dilated mask: the dilation fills
the gap, so the grid is a single component. -/
def cc3dil : Coord → Nat := fun v => if inBounds (1, 1, 3) v then 1 else 0

/-! ## Theorems -/

theorem mem_boxCoordList {b : Box3} {v : Coord} :
    v ∈ boxCoordList b ↔ inBox b v := by
  obtain ⟨z, y, x⟩ := v
  simp only [boxCoordList, List.mem_flatMap, List.mem_map, List.mem_range'_1,
    inBox]
  constructor
  · rintro ⟨z', ⟨hz1, hz2⟩, y', ⟨hy1, hy2⟩, x', ⟨hx1, hx2⟩, h⟩
    cases h
    refine ⟨hz1, by omega, hy1, by omega, hx1, by omega⟩
  · rintro ⟨hz1, hz2, hy1, hy2, hx1, hx2⟩
    exact ⟨z, ⟨hz1, by omega⟩, y, ⟨hy1, by omega⟩, x, ⟨hx1, by omega⟩, rfl⟩

theorem listMin_le {L : List Nat} {x : Nat} (hx : x ∈ L) : listMin L ≤ x := by
  induction L with
  | nil => cases hx
  | cons a rest ih =>
    cases rest with
    | nil =>
      rcases List.mem_singleton.mp hx with rfl
      exact Nat.le_refl _
    | cons b t =>
      rcases List.mem_cons.mp hx with rfl | hx'
      · exact Nat.min_le_left _ _
      · exact le_trans (Nat.min_le_right _ _) (ih hx')

theorem listMin_mem {L : List Nat} (h : L ≠ []) : listMin L ∈ L := by
  induction L with
  | nil => exact absurd rfl h
  | cons a rest ih =>
    cases rest with
    | nil => simp [listMin]
    | cons b t =>
      rcases Nat.le_total a (listMin (b :: t)) with hle | hle
      · simp [listMin, Nat.min_eq_left hle]
      · have : listMin (a :: b :: t) = listMin (b :: t) := by
          simp [listMin, Nat.min_eq_right hle]
        rw [this]
        exact List.mem_cons_of_mem _ (ih (by simp))

theorem listMin_eq_of {L : List Nat} {x : Nat} (hx : x ∈ L)
    (hall : ∀ y ∈ L, x ≤ y) : listMin L = x :=
  le_antisymm (listMin_le hx)
    (hall _ (listMin_mem (by rintro rfl; cases hx)))

theorem le_listMax {L : List Nat} {x : Nat} (hx : x ∈ L) : x ≤ listMax L := by
  induction L with
  | nil => cases hx
  | cons a rest ih =>
    rcases List.mem_cons.mp hx with rfl | hx'
    · exact Nat.le_max_left _ _
    · exact le_trans (ih hx') (Nat.le_max_right _ _)

theorem listMax_mem {L : List Nat} (h : L ≠ []) : listMax L ∈ L := by
  induction L with
  | nil => exact absurd rfl h
  | cons a rest ih =>
    cases rest with
    | nil => simp [listMax]
    | cons b t =>
      have hunf : listMax (a :: b :: t) = max a (listMax (b :: t)) := rfl
      rcases Nat.le_total (listMax (b :: t)) a with hle | hle
      · rw [hunf, Nat.max_eq_left hle]
        exact List.mem_cons_self _ _
      · rw [hunf, Nat.max_eq_right hle]
        exact List.mem_cons_of_mem _ (ih (by simp))

theorem listMax_eq_of {L : List Nat} {x : Nat} (hx : x ∈ L)
    (hall : ∀ y ∈ L, y ≤ x) : listMax L = x :=
  le_antisymm (hall _ (listMax_mem (by rintro rfl; cases hx))) (le_listMax hx)

theorem mem_blobList {dims : Coord} {cc : Coord → Nat} {l : Nat} {v : Coord} :
    v ∈ blobList dims cc l ↔ inBounds dims v ∧ cc v = l := by
  simp only [blobList, List.mem_filter, mem_boxCoordList, inBox, inBounds,
    decide_eq_true_eq]
  omega

/-- Every voxel of a component lies inside the component's tight box. -/
theorem blob_mem_tightBox {dims : Coord} {cc : Coord → Nat} {l : Nat}
    {v : Coord} (hv : v ∈ blobList dims cc l) :
    inBox (tightBox dims cc l) v := by
  refine ⟨listMin_le (List.mem_map_of_mem (·.1) hv),
    Nat.lt_succ_of_le (le_listMax (List.mem_map_of_mem (·.1) hv)),
    listMin_le (List.mem_map_of_mem (·.2.1) hv),
    Nat.lt_succ_of_le (le_listMax (List.mem_map_of_mem (·.2.1) hv)),
    listMin_le (List.mem_map_of_mem (·.2.2) hv),
    Nat.lt_succ_of_le (le_listMax (List.mem_map_of_mem (·.2.2) hv))⟩

/-- A function on the integer points of an interval that agrees on
consecutive points is constant on the interval. -/
theorem axisConst (f : Nat → Nat) (s t : Nat)
    (hstep : ∀ k, s ≤ k → k + 1 < t → f k = f (k + 1)) :
    ∀ a b, s ≤ a → a < t → s ≤ b → b < t → f a = f b := by
  have chain : ∀ d a, s ≤ a → a + d < t → f a = f (a + d) := by
    intro d
    induction d with
    | zero => intro a _ _; rfl
    | succ n ih =>
      intro a ha hlt
      have h1 : f a = f (a + n) := ih a ha (by omega)
      have h2 : f (a + n) = f (a + n + 1) := hstep (a + n) (by omega) (by omega)
      have he : a + (n + 1) = a + n + 1 := by omega
      rw [he]
      exact h1.trans h2
  intro a b ha hat hb hbt
  rcases Nat.le_total a b with hab | hab
  · have hc := chain (b - a) a ha (by omega)
    rwa [Nat.add_sub_cancel' hab] at hc
  · have hc := chain (a - b) b hb (by omega)
    rw [Nat.add_sub_cancel' hab] at hc
    exact hc.symm

/-- Neighbouring grid points one step apart along one axis are
26-adjacent. -/
theorem adj26_stepZ (k y x : Nat) : adj26 (k, y, x) (k + 1, y, x) := by
  refine ⟨by simp [Prod.ext_iff], ?_, ?_, ?_⟩ <;> simp [Nat.dist]

theorem adj26_stepY (z k x : Nat) : adj26 (z, k, x) (z, k + 1, x) := by
  refine ⟨by simp [Prod.ext_iff], ?_, ?_, ?_⟩ <;> simp [Nat.dist]

theorem adj26_stepX (z y k : Nat) : adj26 (z, y, k) (z, y, k + 1) := by
  refine ⟨by simp [Prod.ext_iff], ?_, ?_, ?_⟩ <;> simp [Nat.dist]

/-- Introduction form for box membership on an explicit triple. -/
theorem inBox_mk {b : Box3} {z y x : Nat} (h1 : b.lo.1 ≤ z)
    (h2 : z < b.hi.1) (h3 : b.lo.2.1 ≤ y) (h4 : y < b.hi.2.1)
    (h5 : b.lo.2.2 ≤ x) (h6 : x < b.hi.2.2) : inBox b (z, y, x) :=
  ⟨h1, h2, h3, h4, h5, h6⟩

/-- Key connectivity fact: if every voxel of a box carries a nonzero
component id and 26-adjacent foreground voxels always share their id,
then the id is constant on the whole box.  (A box is face-connected, and
face adjacency is a special case of 26-adjacency.) -/
theorem cc_const_on_box {cc : Coord → Nat} {b : Box3}
    (hadj : ∀ a c, cc a ≠ 0 → cc c ≠ 0 → adj26 a c → cc a = cc c)
    (hfg : ∀ v, inBox b v → cc v ≠ 0) :
    ∀ u w, inBox b u → inBox b w → cc u = cc w := by
  rintro ⟨u1, u2, u3⟩ ⟨w1, w2, w3⟩ hu hw
  obtain ⟨hu1, hu2, hu3, hu4, hu5, hu6⟩ := hu
  obtain ⟨hw1, hw2, hw3, hw4, hw5, hw6⟩ := hw
  have leg1 : cc (u1, u2, u3) = cc (w1, u2, u3) := by
    refine axisConst (fun k => cc (k, u2, u3)) b.lo.1 b.hi.1 ?_ u1 w1 hu1 hu2
      hw1 hw2
    intro k hk1 hk2
    exact hadj _ _
      (hfg (k, u2, u3) (inBox_mk hk1 (by omega) hu3 hu4 hu5 hu6))
      (hfg (k + 1, u2, u3) (inBox_mk (by omega) hk2 hu3 hu4 hu5 hu6))
      (adj26_stepZ k u2 u3)
  have leg2 : cc (w1, u2, u3) = cc (w1, w2, u3) := by
    refine axisConst (fun k => cc (w1, k, u3)) b.lo.2.1 b.hi.2.1 ?_ u2 w2 hu3
      hu4 hw3 hw4
    intro k hk1 hk2
    exact hadj _ _
      (hfg (w1, k, u3) (inBox_mk hw1 hw2 hk1 (by omega) hu5 hu6))
      (hfg (w1, k + 1, u3) (inBox_mk hw1 hw2 (by omega) hk2 hu5 hu6))
      (adj26_stepY w1 k u3)
  have leg3 : cc (w1, w2, u3) = cc (w1, w2, w3) := by
    refine axisConst (fun k => cc (w1, w2, k)) b.lo.2.2 b.hi.2.2 ?_ u3 w3 hu5
      hu6 hw5 hw6
    intro k hk1 hk2
    exact hadj _ _
      (hfg (w1, w2, k) (inBox_mk hw1 hw2 hw3 hw4 hk1 (by omega)))
      (hfg (w1, w2, k + 1) (inBox_mk hw1 hw2 hw3 hw4 (by omega) hk2))
      (adj26_stepX w1 w2 k)
  exact (leg1.trans leg2).trans leg3

/-- Counting a list against three mutually exclusive, jointly exhaustive
predicates partitions its length. -/
theorem length_filter_three {α : Type} (L : List α) (p q r : α → Bool)
    (h : ∀ x ∈ L,
      (p x = true ∧ q x = false ∧ r x = false) ∨
      (p x = false ∧ q x = true ∧ r x = false) ∨
      (p x = false ∧ q x = false ∧ r x = true)) :
    (L.filter p).length + (L.filter q).length + (L.filter r).length =
      L.length := by
  induction L with
  | nil => simp
  | cons a t ih =>
    have ha := h a (List.mem_cons_self _ _)
    have ih' := ih fun x hx => h x (List.mem_cons_of_mem _ hx)
    rcases ha with ⟨h1, h2, h3⟩ | ⟨h1, h2, h3⟩ | ⟨h1, h2, h3⟩ <;>
      simp [List.filter_cons, h1, h2, h3] <;> omega

/-- The source's `np.delete(counts, [0, label_idx]).sum()` computes
exactly the spec's "other occurrences" count on the tight box of a
nonempty component of a genuine 26-connectivity labeling.  The two
cases: if background occurs in the box it is the smallest value, so the
deleted indices are the background count and the own count; if it does
not, connectivity forces the whole box to carry the blob's own id, so
both counts coincide with the total and the result is `0` either way. -/
theorem otherOccurrences_eq_spec {dims : Coord} {cc : Coord → Nat} {l : Nat}
    (hadj : ∀ a c, cc a ≠ 0 → cc c ≠ 0 → adj26 a c → cc a = cc c)
    (hl : l ≠ 0) (hne : ∃ v, v ∈ blobList dims cc l) :
    otherOccurrences (tightBox dims cc l) cc l =
      specOtherCount (tightBox dims cc l) cc l := by
  obtain ⟨v0, hv0⟩ := hne
  have hv0box : inBox (tightBox dims cc l) v0 := blob_mem_tightBox hv0
  have hv0cc : cc v0 = l := (mem_blobList.mp hv0).2
  by_cases hbg : ∃ w ∈ boxCoordList (tightBox dims cc l), cc w = 0
  · obtain ⟨w0, hw0mem, hw0⟩ := hbg
    have hmin : minValIn (tightBox dims cc l) cc = 0 :=
      Nat.le_zero.mp (hw0 ▸ listMin_le (List.mem_map.mpr ⟨w0, hw0mem, rfl⟩))
    have hpart := length_filter_three (boxCoordList (tightBox dims cc l))
      (fun c => decide (cc c = 0)) (fun c => decide (cc c = l))
      (fun c => decide (cc c ≠ 0 ∧ cc c ≠ l)) ?_
    · rw [otherOccurrences, hmin, if_neg (Ne.symm hl)]
      unfold boxTotal countEq specOtherCount at *
      omega
    · intro x _
      by_cases hx0 : cc x = 0
      · exact Or.inl (by simp [hx0, Ne.symm hl])
      · by_cases hxl : cc x = l
        · exact Or.inr (Or.inl (by simp [hx0, hxl, hl]))
        · exact Or.inr (Or.inr (by simp [hx0, hxl]))
  · push_neg at hbg
    have hall : ∀ w ∈ boxCoordList (tightBox dims cc l), cc w = l := by
      intro w hw
      have hc := cc_const_on_box hadj
        (fun v hv => hbg v (mem_boxCoordList.mpr hv)) w v0
        (mem_boxCoordList.mp hw) hv0box
      rw [hc, hv0cc]
    have hminl : minValIn (tightBox dims cc l) cc = l := by
      refine listMin_eq_of
        (List.mem_map.mpr ⟨v0, mem_boxCoordList.mpr hv0box, hv0cc⟩) ?_
      intro y hy
      obtain ⟨w, hwmem, rfl⟩ := List.mem_map.mp hy
      rw [hall w hwmem]
    have hcl : countEq (tightBox dims cc l) cc l =
        boxTotal (tightBox dims cc l) := by
      unfold countEq boxTotal
      rw [List.filter_eq_self.mpr fun a ha => by simp [hall a ha]]
    have hspec : specOtherCount (tightBox dims cc l) cc l = 0 := by
      unfold specOtherCount
      rw [List.filter_eq_nil_iff.mpr fun a ha => by simp [hall a ha, hl]]
      rfl
    rw [otherOccurrences, hminl, if_pos rfl, hcl, hspec, Nat.sub_self]

/-- C4: For every blob candidate, the overlap filter rejects the blob if
and only if the number of voxels in its tight bounding box carrying a
component id other than background `0` and other than the blob's own id,
divided by the box's voxel count, exceeds `allowed_perc_other_blobs` —
for every labeling satisfying the connected-component axioms, including
when the tight box contains no background voxels. -/
theorem c4_overlap_filter_iff (dims : Coord) (cc : Coord → Nat) (l : Nat)
    (allowed : ℚ) (ls : List Nat)
    (h0 : ∀ v, cc v ≠ 0 → inBounds dims v)
    (hadj : ∀ a c, cc a ≠ 0 → cc c ≠ 0 → adj26 a c → cc a = cc c)
    (hl : l ≠ 0) (hv : ∃ v, cc v = l) (hmem : l ∈ ls) :
    l ∉ acceptedLabels dims cc allowed ls ↔
      ((specOtherCount (tightBox dims cc l) cc l : ℚ) /
        (boxTotal (tightBox dims cc l) : ℚ) > allowed) := by
  obtain ⟨v, hvl⟩ := hv
  have hvb : v ∈ blobList dims cc l :=
    mem_blobList.mpr ⟨h0 v (by rw [hvl]; exact hl), hvl⟩
  have hkey := otherOccurrences_eq_spec hadj hl ⟨v, hvb⟩
  simp only [acceptedLabels, List.mem_filter, hmem, true_and, rejectedQ,
    Bool.not_eq_true, Bool.not_eq_false, decide_eq_true_eq, hkey]
  simp

theorem c4_witness :
    1 ∉ acceptedLabels (1, 1, 3) ccW4 (1 / 2 : ℚ) [1, 2] ↔
      ((specOtherCount (tightBox (1, 1, 3) ccW4 1) ccW4 1 : ℚ) /
        (boxTotal (tightBox (1, 1, 3) ccW4 1) : ℚ) > (1 / 2 : ℚ)) := by
  refine c4_overlap_filter_iff (1, 1, 3) ccW4 1 (1 / 2) [1, 2] ?_ ?_
    (by decide) ⟨(0, 0, 0), by decide⟩ (by decide)
  · intro v hv
    by_cases h1 : v = (0, 0, 0)
    · subst h1; decide
    · by_cases h2 : v = (0, 0, 2)
      · subst h2; decide
      · exact absurd (by unfold ccW4; rw [if_neg h1, if_neg h2]) hv
  · intro a c ha hc hac
    have hmema : a = (0, 0, 0) ∨ a = (0, 0, 2) := by
      by_cases h1 : a = (0, 0, 0)
      · exact Or.inl h1
      by_cases h2 : a = (0, 0, 2)
      · exact Or.inr h2
      exact absurd (by unfold ccW4; rw [if_neg h1, if_neg h2]) ha
    have hmemc : c = (0, 0, 0) ∨ c = (0, 0, 2) := by
      by_cases h1 : c = (0, 0, 0)
      · exact Or.inl h1
      by_cases h2 : c = (0, 0, 2)
      · exact Or.inr h2
      exact absurd (by unfold ccW4; rw [if_neg h1, if_neg h2]) hc
    rcases hmema with rfl | rfl <;> rcases hmemc with rfl | rfl
    · rfl
    · exact absurd hac.2.2.2 (by decide)
    · exact absurd hac.2.2.2 (by decide)
    · rfl

/-- C2 (amended): with `slice_margins = (0, 0, 0)` the margined box keeps
the tight box's start on every axis, but its stop is exactly one less
than the tight box's stop on every axis (the source computes the margined
stop as `x.max() + margin` while the tight stop is `x.max() + 1`), so the
margined box never equals the tight box. -/
theorem c2_zero_margin_box (dims : Coord) (cc : Coord → Nat) (l : Nat) :
    (margedBox dims cc l (0, 0, 0)).lo = (tightBox dims cc l).lo ∧
    (margedBox dims cc l (0, 0, 0)).hi.1 + 1 = (tightBox dims cc l).hi.1 ∧
    (margedBox dims cc l (0, 0, 0)).hi.2.1 + 1 =
      (tightBox dims cc l).hi.2.1 ∧
    (margedBox dims cc l (0, 0, 0)).hi.2.2 + 1 =
      (tightBox dims cc l).hi.2.2 ∧
    margedBox dims cc l (0, 0, 0) ≠ tightBox dims cc l := by
  refine ⟨?_, ?_, ?_, ?_, ?_⟩
  · simp [margedBox]
  · simp [margedBox, tightBox]
  · simp [margedBox, tightBox]
  · simp [margedBox, tightBox]
  · intro heq
    have hcomp := congrArg (fun b => b.hi.1) heq
    simp [margedBox, tightBox] at hcomp

/-- C2 counterexample: for a concrete one-voxel blob the margined box
with zero margins is empty and differs from the tight box, refuting the
claim that the two coincide. -/
theorem c2_counterexample :
    margedBox (1, 1, 1) ccC2 1 (0, 0, 0) ≠ tightBox (1, 1, 1) ccC2 1 := by
  decide

/-- If every voxel of a (nonempty) box carries the blob's own id, the
`np.delete`-based other-occurrence count is zero. -/
theorem otherOccurrences_zero_of_const {b : Box3} {cc : Coord → Nat}
    {l : Nat} (hne : ∃ w, w ∈ boxCoordList b)
    (hall : ∀ w ∈ boxCoordList b, cc w = l) :
    otherOccurrences b cc l = 0 := by
  obtain ⟨w0, hw0⟩ := hne
  have hminl : minValIn b cc = l := by
    unfold minValIn
    refine listMin_eq_of (List.mem_map.mpr ⟨w0, hw0, hall w0 hw0⟩) ?_
    intro y hy
    obtain ⟨w, hw, rfl⟩ := List.mem_map.mp hy
    exact (hall w hw).ge
  have hcl : countEq b cc l = boxTotal b := by
    unfold countEq boxTotal
    rw [List.filter_eq_self.mpr fun a ha => by simp [hall a ha]]
  rw [otherOccurrences, hminl, if_pos rfl, hcl, Nat.sub_self]

theorem boxB0_inBounds {v : Coord} (h : inBox boxB0 v) :
    inBounds (50, 100, 100) v := by
  obtain ⟨z, y, x⟩ := v
  have h2 : z < 20 := h.2.1
  have h4 : y < 40 := h.2.2.2.1
  have h6 : x < 40 := h.2.2.2.2.2
  refine ⟨?_, ?_, ?_⟩
  · show z < 50; omega
  · show y < 100; omega
  · show x < 100; omega

theorem maskOf_sLabels {v : Coord} :
    maskOf sLabels 2 v = true ↔ inBox boxB0 v := by
  unfold maskOf sLabels
  by_cases h : inBox boxB0 v
  · simp [h]
  · simp [h]

/-- The scenario, settled for every labeling satisfying the
connected-component axioms for the mask of label `2` of `sLabels`:
`crop_to_boxes_of_interset_cc` returns exactly one crop, cut at the box
`[9:20, 28:41, 28:41]` (the start margins are applied in full, but the
source's unclamped `x.max() + margin` stop loses one voxel with respect
to the spec's `[9:21, 28:42, 28:42]`). -/
theorem scenario_crops (ct : Volume) (cc : Coord → Nat) (ls : List Nat)
    (hzero : ∀ v, cc v ≠ 0 ↔
      (inBounds (50, 100, 100) v ∧ maskOf sLabels 2 v = true))
    (hadj : ∀ a c, cc a ≠ 0 → cc c ≠ 0 → adj26 a c → cc a = cc c)
    (hnodup : ls.Nodup)
    (hls : ∀ x, x ∈ ls ↔ x ≠ 0 ∧ ∃ v, cc v = x) :
    crop_to_boxes_of_interset_cc ct sLabels scenParams cc ls =
      [(cropVol ct ⟨(9, 28, 28), (20, 41, 41)⟩,
        cropVol sLabels ⟨(9, 28, 28), (20, 41, 41)⟩,
        locStr ⟨(9, 28, 28), (20, 41, 41)⟩)] := by
  have hz' : ∀ v, cc v ≠ 0 ↔ inBox boxB0 v := by
    intro v
    rw [hzero v]
    constructor
    · rintro ⟨_, hm⟩; exact maskOf_sLabels.mp hm
    · intro hb; exact ⟨boxB0_inBounds hb, maskOf_sLabels.mpr hb⟩
  have hp0 : inBox boxB0 (10, 30, 30) := by decide
  have hl0 : cc (10, 30, 30) ≠ 0 := (hz' _).mpr hp0
  have hccl : ∀ v, cc v = cc (10, 30, 30) ↔ inBox boxB0 v := by
    intro v
    constructor
    · intro he; exact (hz' v).mp (by rw [he]; exact hl0)
    · intro hb
      exact cc_const_on_box hadj (fun u hu => (hz' u).mpr hu) v (10, 30, 30)
        hb hp0
  have hsingle : ls = [cc (10, 30, 30)] := by
    have hmemiff : ∀ x, x ∈ ls ↔ x = cc (10, 30, 30) := by
      intro x
      rw [hls x]
      constructor
      · rintro ⟨hx0, v, hv⟩
        have hb : inBox boxB0 v := (hz' v).mp (by rw [hv]; exact hx0)
        rw [← hv]
        exact (hccl v).mpr hb
      · rintro rfl
        exact ⟨hl0, (10, 30, 30), rfl⟩
    cases ls with
    | nil => exact absurd ((hmemiff _).mpr rfl) (List.not_mem_nil _)
    | cons b t =>
      have hb : b = cc (10, 30, 30) := (hmemiff b).mp (List.mem_cons_self _ _)
      have ht : t = [] := by
        by_contra hne
        obtain ⟨c, hcmem⟩ := List.exists_mem_of_ne_nil t hne
        have hcb : c = cc (10, 30, 30) :=
          (hmemiff c).mp (List.mem_cons_of_mem _ hcmem)
        rw [hb] at hnodup
        rw [hcb] at hcmem
        exact (List.nodup_cons.mp hnodup).1 hcmem
      rw [hb, ht]
  have hblob : ∀ v, v ∈ blobList (50, 100, 100) cc (cc (10, 30, 30)) ↔
      inBox boxB0 v := by
    intro v
    rw [mem_blobList]
    constructor
    · rintro ⟨_, he⟩; exact (hccl v).mp he
    · intro hb; exact ⟨boxB0_inBounds hb, (hccl v).mpr hb⟩
  have htight : tightBox (50, 100, 100) cc (cc (10, 30, 30)) = boxB0 := by
    have hmin1 : listMin
        ((blobList (50, 100, 100) cc (cc (10, 30, 30))).map (·.1)) = 10 := by
      refine listMin_eq_of
        (List.mem_map.mpr ⟨(10, 30, 30), (hblob _).mpr (by decide), rfl⟩) ?_
      intro y hy
      obtain ⟨w, hw, rfl⟩ := List.mem_map.mp hy
      exact ((hblob w).mp hw).1
    have hmin2 : listMin
        ((blobList (50, 100, 100) cc (cc (10, 30, 30))).map (·.2.1)) = 30 := by
      refine listMin_eq_of
        (List.mem_map.mpr ⟨(10, 30, 30), (hblob _).mpr (by decide), rfl⟩) ?_
      intro y hy
      obtain ⟨w, hw, rfl⟩ := List.mem_map.mp hy
      exact ((hblob w).mp hw).2.2.1
    have hmin3 : listMin
        ((blobList (50, 100, 100) cc (cc (10, 30, 30))).map (·.2.2)) = 30 := by
      refine listMin_eq_of
        (List.mem_map.mpr ⟨(10, 30, 30), (hblob _).mpr (by decide), rfl⟩) ?_
      intro y hy
      obtain ⟨w, hw, rfl⟩ := List.mem_map.mp hy
      exact ((hblob w).mp hw).2.2.2.2.1
    have hmax1 : listMax
        ((blobList (50, 100, 100) cc (cc (10, 30, 30))).map (·.1)) = 19 := by
      refine listMax_eq_of
        (List.mem_map.mpr ⟨(19, 30, 30), (hblob _).mpr (by decide), rfl⟩) ?_
      intro y hy
      obtain ⟨w, hw, rfl⟩ := List.mem_map.mp hy
      have hlt : w.1 < 20 := ((hblob w).mp hw).2.1
      omega
    have hmax2 : listMax
        ((blobList (50, 100, 100) cc (cc (10, 30, 30))).map (·.2.1)) = 39 := by
      refine listMax_eq_of
        (List.mem_map.mpr ⟨(10, 39, 30), (hblob _).mpr (by decide), rfl⟩) ?_
      intro y hy
      obtain ⟨w, hw, rfl⟩ := List.mem_map.mp hy
      have hlt : w.2.1 < 40 := ((hblob w).mp hw).2.2.2.1
      omega
    have hmax3 : listMax
        ((blobList (50, 100, 100) cc (cc (10, 30, 30))).map (·.2.2)) = 39 := by
      refine listMax_eq_of
        (List.mem_map.mpr ⟨(10, 30, 39), (hblob _).mpr (by decide), rfl⟩) ?_
      intro y hy
      obtain ⟨w, hw, rfl⟩ := List.mem_map.mp hy
      have hlt : w.2.2 < 40 := ((hblob w).mp hw).2.2.2.2.2
      omega
    unfold tightBox
    rw [hmin1, hmin2, hmin3, hmax1, hmax2, hmax3]
    rfl
  have hother : otherOccurrences boxB0 cc (cc (10, 30, 30)) = 0 := by
    refine otherOccurrences_zero_of_const
      ⟨(10, 30, 30), mem_boxCoordList.mpr hp0⟩ ?_
    intro w hw
    exact (hccl w).mpr (mem_boxCoordList.mp hw)
  have hrej : rejectedQ (tightBox (50, 100, 100) cc (cc (10, 30, 30))) cc
      (cc (10, 30, 30)) (1 / 2 : ℚ) = false := by
    rw [htight]
    unfold rejectedQ
    rw [hother]
    norm_num
  have hmarg : margedBox (50, 100, 100) cc (cc (10, 30, 30)) (1, 2, 2) =
      ⟨(9, 28, 28), (20, 41, 41)⟩ := by
    unfold margedBox
    rw [htight]
    rfl
  have hdims : sLabels.dims = (50, 100, 100) := rfl
  have hap : scenParams.allowedPercOtherBlobs = (1 / 2 : ℚ) := rfl
  have hsm : scenParams.sliceMargins = (1, 2, 2) := rfl
  unfold crop_to_boxes_of_interset_cc
  rw [hdims, hap, hsm, hsingle]
  unfold acceptedLabels
  rw [List.filter_cons]
  rw [hrej]
  simp only [Bool.not_false, if_true, List.filter_nil, List.map_cons,
    List.map_nil, hmarg]

/-- C1 (amended): for the scenario label volume (single connected region
of label `2` on `[10:20, 30:40, 30:40]` in a `(50,100,100)` volume),
`cropping_label = 2`, `slice_margins = (1,2,2)`,
`allowed_perc_other_blobs = 0.5`, the pipeline produces exactly one
accepted crop, cut at box `[9:20, 28:41, 28:41]`, with CT and label
arrays both of shape `(11,13,13)` — not the spec's `[9:21, 28:42, 28:42]`
and `(12,14,14)`, because the margined stop is computed as
`x.max() + margin` instead of `x.max() + 1 + margin`. -/
theorem c1_one_crop_shape (ct : Volume) (cc : Coord → Nat) (ls : List Nat)
    (hct : ct.dims = (50, 100, 100))
    (hzero : ∀ v, cc v ≠ 0 ↔
      (inBounds (50, 100, 100) v ∧ maskOf sLabels 2 v = true))
    (hadj : ∀ a c, cc a ≠ 0 → cc c ≠ 0 → adj26 a c → cc a = cc c)
    (hnodup : ls.Nodup)
    (hls : ∀ x, x ∈ ls ↔ x ≠ 0 ∧ ∃ v, cc v = x) :
    crop_to_boxes_of_interset_cc ct sLabels scenParams cc ls =
      [(cropVol ct ⟨(9, 28, 28), (20, 41, 41)⟩,
        cropVol sLabels ⟨(9, 28, 28), (20, 41, 41)⟩,
        locStr ⟨(9, 28, 28), (20, 41, 41)⟩)] ∧
    (cropVol ct ⟨(9, 28, 28), (20, 41, 41)⟩).dims = (11, 13, 13) ∧
    (cropVol sLabels ⟨(9, 28, 28), (20, 41, 41)⟩).dims = (11, 13, 13) := by
  refine ⟨scenario_crops ct cc ls hzero hadj hnodup hls, ?_, rfl⟩
  simp [cropVol, hct]

theorem ccW1_zero : ∀ v, ccW1 v ≠ 0 ↔
    (inBounds (50, 100, 100) v ∧ maskOf sLabels 2 v = true) := by
  intro v
  unfold ccW1
  by_cases h : inBox boxB0 v
  · simp only [if_pos h]
    exact iff_of_true one_ne_zero ⟨boxB0_inBounds h, maskOf_sLabels.mpr h⟩
  · simp only [if_neg h]
    constructor
    · intro hc; exact absurd rfl hc
    · rintro ⟨_, hm⟩; exact absurd (maskOf_sLabels.mp hm) h

theorem ccW1_adj : ∀ a c, ccW1 a ≠ 0 → ccW1 c ≠ 0 → adj26 a c →
    ccW1 a = ccW1 c := by
  have hone : ∀ w, ccW1 w ≠ 0 → ccW1 w = 1 := by
    intro w hw
    unfold ccW1 at *
    by_cases h : inBox boxB0 w
    · rw [if_pos h]
    · exact absurd (if_neg h) hw
  intro a c ha hc _
  rw [hone a ha, hone c hc]

theorem ccW1_labels : ∀ x, x ∈ [1] ↔ x ≠ 0 ∧ ∃ v, ccW1 v = x := by
  intro x
  constructor
  · intro hx
    rcases List.mem_singleton.mp hx with rfl
    refine ⟨one_ne_zero, (10, 30, 30), ?_⟩
    unfold ccW1
    rw [if_pos (by decide)]
  · rintro ⟨hx0, v, hv⟩
    unfold ccW1 at hv
    by_cases h : inBox boxB0 v
    · rw [if_pos h] at hv
      rw [← hv]
      exact List.mem_singleton.mpr rfl
    · rw [if_neg h] at hv
      exact absurd hv.symm hx0

theorem c1_witness :
    crop_to_boxes_of_interset_cc ctW1 sLabels scenParams ccW1 [1] =
      [(cropVol ctW1 ⟨(9, 28, 28), (20, 41, 41)⟩,
        cropVol sLabels ⟨(9, 28, 28), (20, 41, 41)⟩,
        locStr ⟨(9, 28, 28), (20, 41, 41)⟩)] ∧
    (cropVol ctW1 ⟨(9, 28, 28), (20, 41, 41)⟩).dims = (11, 13, 13) ∧
    (cropVol sLabels ⟨(9, 28, 28), (20, 41, 41)⟩).dims = (11, 13, 13) :=
  c1_one_crop_shape ctW1 ccW1 [1] rfl ccW1_zero ccW1_adj (by simp)
    ccW1_labels

/-- C1 counterexample: at the concrete scenario input the pipeline does
produce exactly one crop, but its arrays have shape `(11,13,13)`, not the
claimed `(12,14,14)`. -/
theorem c1_counterexample :
    (crop_to_boxes_of_interset_cc ctW1 sLabels scenParams ccW1 [1]).length
        = 1 ∧
      ∀ c ∈ crop_to_boxes_of_interset_cc ctW1 sLabels scenParams ccW1 [1],
        c.1.dims ≠ (12, 14, 14) ∧ c.2.1.dims ≠ (12, 14, 14) := by
  have h := scenario_crops ctW1 ccW1 [1] ccW1_zero ccW1_adj (by simp)
    ccW1_labels
  rw [h]
  refine ⟨rfl, ?_⟩
  intro c hc
  rcases List.mem_singleton.mp hc with rfl
  exact ⟨by decide, by decide⟩

theorem strReplaceAux_of_not_occurs {pat rep : Str} :
    ∀ fuel s, occursIn pat s = false → strReplaceAux pat rep fuel s = s := by
  intro fuel
  induction fuel with
  | zero => intro s _; rfl
  | succ n ih =>
    intro s hno
    cases s with
    | nil => rfl
    | cons c rest =>
      have hno' : headMatch pat (c :: rest) = false ∧
          occursIn pat rest = false := by
        have hthis : (headMatch pat (c :: rest) || occursIn pat rest)
            = false := hno
        exact ⟨by cases hhm : headMatch pat (c :: rest) <;>
            simp [hhm] at hthis ⊢, by cases hoc : occursIn pat rest <;>
            simp [hoc] at hthis ⊢⟩
      rw [strReplaceAux, if_neg]
      · rw [ih rest hno'.2]
      · rw [hno'.1, Bool.and_false]
        exact Bool.false_ne_true

theorem strReplace_of_not_occurs {pat rep : Str} (s : Str)
    (h : occursIn pat s = false) : strReplace pat rep s = s :=
  strReplaceAux_of_not_occurs s.length s h

theorem processVolume_ok {cfg : PipeCfg} {outDir : Str}
    {zCT zS : Volume → Volume} {cc : Coord → Nat} {ls : List Nat}
    {p : SrcPair} {recs : List SaveRec}
    (h : processVolume cfg outDir zCT zS cc ls p = Except.ok recs) :
    p.seg.dims = p.ct.dims ∧
    recs = (cropsOf cfg cc ls p).enum.filterMap
      (stepOf cfg outDir zCT zS p.base) := by
  unfold processVolume at h
  by_cases hd : p.seg.dims = p.ct.dims
  · rw [if_pos hd] at h
    exact ⟨hd, (Except.ok.inj h).symm⟩
  · rw [if_neg hd] at h
    simp at h

theorem stepOf_some {cfg : PipeCfg} {outDir : Str}
    {zCT zS : Volume → Volume} {base : Str} {e : Nat × Volume × Volume × Str}
    {r : SaveRec} (h : stepOf cfg outDir zCT zS base e = some r) :
    sizeTooSmall r.ctArr.dims cfg.minSizes = false ∧
    r.ctPath = outDir ++ strL "/ct/" ++ fnameFor base e.1 e.2.2.2 ∧
    r.segPath = strReplace patVol patSeg r.ctPath ∧
    r.ctArr = (if cfg.sliceSizeMm ≠ 1 ∨ cfg.spatialScale ≠ 1 then zCT e.2.1
      else e.2.1) ∧
    r.segArr = (if cfg.sliceSizeMm ≠ 1 ∨ cfg.spatialScale ≠ 1 then
        zS (if cfg.removeLiver then mapVol remapLiver e.2.2.1 else e.2.2.1)
      else (if cfg.removeLiver then mapVol remapLiver e.2.2.1
        else e.2.2.1)) := by
  unfold stepOf at h
  by_cases hs : sizeTooSmall
      (if cfg.sliceSizeMm ≠ 1 ∨ cfg.spatialScale ≠ 1 then zCT e.2.1
       else e.2.1).dims cfg.minSizes = true
  · rw [if_pos hs] at h
    simp at h
  · rw [if_neg hs] at h
    injection h with h'
    subst h'
    simp only [Bool.not_eq_true] at hs
    exact ⟨hs, rfl, rfl, rfl, rfl⟩

theorem snd_mem_of_mem_enum {α : Type} {l : List α} {e : Nat × α}
    (h : e ∈ l.enum) : e.2 ∈ l := by
  obtain ⟨i, x⟩ := e
  exact List.getElem?_mem (List.mk_mem_enum_iff_getElem?.mp h)

theorem cropVol_dims_eq {v1 v2 : Volume} (b : Box3)
    (h : v1.dims = v2.dims) : (cropVol v1 b).dims = (cropVol v2 b).dims := by
  simp [cropVol, h]

/-- Both arrays of any crop emitted for one source pair have the same
shape, because both are sliced with the same margined box from arrays of
equal shape. -/
theorem cropsOf_dims_eq {cfg : PipeCfg} {cc : Coord → Nat} {ls : List Nat}
    {p : SrcPair} (hd : p.seg.dims = p.ct.dims)
    {c : Volume × Volume × Str} (hc : c ∈ cropsOf cfg cc ls p) :
    c.1.dims = c.2.1.dims := by
  unfold cropsOf at hc
  cases hcp : cfg.cropParams with
  | none =>
    rw [hcp] at hc
    rcases List.mem_singleton.mp hc with rfl
    exact hd.symm
  | some cp =>
    rw [hcp] at hc
    unfold crop_to_boxes_of_interset_cc at hc
    obtain ⟨l, _, rfl⟩ := List.mem_map.mp hc
    exact cropVol_dims_eq _ (hd.symm : (mapVol clipHU p.ct).dims = p.seg.dims)

theorem remapLiver_eq_one {x : Int} : remapLiver x = 1 ↔ x = 2 := by
  unfold remapLiver
  by_cases h1 : x = 1
  · subst h1; norm_num
  · by_cases h2 : x = 2
    · subst h2; norm_num
    · rw [if_neg h1, if_neg h2]
      exact ⟨fun hx => absurd hx h1, fun hx => absurd hx h2⟩

/-- C7: every persisted crop has CT and label arrays of identical shape
and every axis at least the configured minimum — the size gate silently
drops any crop with a shorter axis, so none is ever persisted.  The
`ndimage.zoom` calls are abstracted by `zCT`/`zS`, constrained to produce
the same output shape for equal input shapes (their zoom factors are
identical for the CT and label arrays). -/
theorem c7_size_gate (cfg : PipeCfg) (outDir : Str)
    (zCT zS : Volume → Volume) (zshape : Coord → Coord)
    (cc : Coord → Nat) (ls : List Nat) (p : SrcPair) (recs : List SaveRec)
    (r : SaveRec)
    (hz1 : ∀ v, (zCT v).dims = zshape v.dims)
    (hz2 : ∀ v, (zS v).dims = zshape v.dims)
    (h : processVolume cfg outDir zCT zS cc ls p = Except.ok recs)
    (hr : r ∈ recs) :
    r.ctArr.dims = r.segArr.dims ∧
    cfg.minSizes.1 ≤ r.ctArr.dims.1 ∧
    cfg.minSizes.2.1 ≤ r.ctArr.dims.2.1 ∧
    cfg.minSizes.2.2 ≤ r.ctArr.dims.2.2 := by
  obtain ⟨hd, hrecs⟩ := processVolume_ok h
  rw [hrecs] at hr
  obtain ⟨e, hemem, hstep⟩ := List.mem_filterMap.mp hr
  obtain ⟨hsize, _, _, hct, hseg⟩ := stepOf_some hstep
  have hcd : e.2.1.dims = e.2.2.1.dims :=
    cropsOf_dims_eq hd (snd_mem_of_mem_enum hemem)
  have hrem : (if cfg.removeLiver then mapVol remapLiver e.2.2.1
      else e.2.2.1).dims = e.2.2.1.dims := by
    by_cases hrl : cfg.removeLiver = true
    · rw [if_pos hrl]; rfl
    · rw [if_neg hrl]
  have hshape : r.ctArr.dims = r.segArr.dims := by
    rw [hct, hseg]
    by_cases hrs : cfg.sliceSizeMm ≠ 1 ∨ cfg.spatialScale ≠ 1
    · rw [if_pos hrs, if_pos hrs, hz1, hz2, hrem, hcd]
    · rw [if_neg hrs, if_neg hrs, hrem, hcd]
  have hge : cfg.minSizes.1 ≤ r.ctArr.dims.1 ∧
      cfg.minSizes.2.1 ≤ r.ctArr.dims.2.1 ∧
      cfg.minSizes.2.2 ≤ r.ctArr.dims.2.2 := by
    unfold sizeTooSmall at hsize
    simp only [Bool.or_eq_false_iff, decide_eq_false_iff_not, not_lt]
      at hsize
    exact ⟨hsize.1.1, hsize.1.2, hsize.2⟩
  exact ⟨hshape, hge.1, hge.2.1, hge.2.2⟩

theorem procW7_run :
    processVolume cfgW7 (strL "out") id id ccTriv [] pairW7 =
      Except.ok [recW7] := rfl

theorem c7_witness :
    recW7.ctArr.dims = recW7.segArr.dims ∧
    cfgW7.minSizes.1 ≤ recW7.ctArr.dims.1 ∧
    cfgW7.minSizes.2.1 ≤ recW7.ctArr.dims.2.1 ∧
    cfgW7.minSizes.2.2 ≤ recW7.ctArr.dims.2.2 :=
  c7_size_gate cfgW7 (strL "out") id id (fun d => d) ccTriv [] pairW7
    [recW7] recW7 (fun _ => rfl) (fun _ => rfl) procW7_run
    (List.mem_singleton.mpr rfl)

/-- C6: with `remove_liver_label = True`, every persisted label array —
on either resampling path — satisfies: a voxel equal to `1` comes from a
source voxel equal to `2`, and a source voxel equal to `1` never
survives as `1`.  The label arrays are resampled with `ndimage.zoom
order=0` (nearest neighbour), abstracted by the hypothesis that every
output voxel of `zS` carries the value of one input voxel through an
index map; `f` is the resulting output-to-source voxel correspondence
(the crop offset, composed with the zoom's index map when resampling is
active). -/
theorem c6_label_remap (cfg : PipeCfg) (outDir : Str)
    (zCT zS : Volume → Volume) (cc : Coord → Nat) (ls : List Nat)
    (p : SrcPair) (recs : List SaveRec) (r : SaveRec)
    (hrl : cfg.removeLiver = true)
    (hzs : ∀ v : Volume, ∃ g : Coord → Coord, ∀ c : Coord,
      (zS v).val c = v.val (g c))
    (h : processVolume cfg outDir zCT zS cc ls p = Except.ok recs)
    (hr : r ∈ recs) :
    ∃ f : Coord → Coord, ∀ c : Coord,
      (r.segArr.val c = 1 → p.seg.val (f c) = 2) ∧
      (p.seg.val (f c) = 1 → r.segArr.val c ≠ 1) := by
  obtain ⟨hd, hrecs⟩ := processVolume_ok h
  rw [hrecs] at hr
  obtain ⟨e, hemem, hstep⟩ := List.mem_filterMap.mp hr
  obtain ⟨_, _, _, _, hseg⟩ := stepOf_some hstep
  rw [if_pos hrl] at hseg
  have hcase : ∃ k : Coord → Coord, ∀ c : Coord,
      e.2.2.1.val c = p.seg.val (k c) := by
    have hc := snd_mem_of_mem_enum hemem
    unfold cropsOf at hc
    cases hcp : cfg.cropParams with
    | none =>
      rw [hcp] at hc
      rcases List.mem_singleton.mp hc with h'
      exact ⟨fun c => c, fun c => by rw [h']⟩
    | some cp =>
      rw [hcp] at hc
      unfold crop_to_boxes_of_interset_cc at hc
      obtain ⟨l, _, h'⟩ := List.mem_map.mp hc
      have hps : e.2.2.1 =
          cropVol p.seg (margedBox p.seg.dims cc l cp.sliceMargins) := by
        rw [← h']
      refine ⟨fun c =>
        ((margedBox p.seg.dims cc l cp.sliceMargins).lo.1 + c.1,
         (margedBox p.seg.dims cc l cp.sliceMargins).lo.2.1 + c.2.1,
         (margedBox p.seg.dims cc l cp.sliceMargins).lo.2.2 + c.2.2),
        fun c => ?_⟩
      rw [hps]
      rfl
  have hmain : ∀ x : Int, (remapLiver x = 1 → x = 2) ∧
      (x = 1 → remapLiver x ≠ 1) := by
    intro x
    refine ⟨fun hx => remapLiver_eq_one.mp hx, fun hx hcontra => ?_⟩
    have h2 := remapLiver_eq_one.mp hcontra
    rw [hx] at h2
    exact absurd h2 (by decide)
  obtain ⟨k, hk⟩ := hcase
  by_cases hrs : cfg.sliceSizeMm ≠ 1 ∨ cfg.spatialScale ≠ 1
  · rw [if_pos hrs] at hseg
    obtain ⟨g, hg⟩ := hzs (mapVol remapLiver e.2.2.1)
    refine ⟨fun c => k (g c), fun c => ?_⟩
    have hv : r.segArr.val c = remapLiver (p.seg.val (k (g c))) := by
      rw [hseg, hg c]
      show remapLiver (e.2.2.1.val (g c)) = _
      rw [hk (g c)]
    rw [hv]
    exact hmain _
  · rw [if_neg hrs] at hseg
    refine ⟨k, fun c => ?_⟩
    have hv : r.segArr.val c = remapLiver (p.seg.val (k c)) := by
      rw [hseg]
      show remapLiver (e.2.2.1.val c) = _
      rw [hk c]
    rw [hv]
    exact hmain _

theorem procW6_run :
    processVolume cfgW6 (strL "out") id id ccTriv [] pairW6 =
      Except.ok [recW6] := rfl

theorem c6_witness :
    ∃ f : Coord → Coord, ∀ c : Coord,
      (recW6.segArr.val c = 1 → pairW6.seg.val (f c) = 2) ∧
      (pairW6.seg.val (f c) = 1 → recW6.segArr.val c ≠ 1) :=
  c6_label_remap cfgW6 (strL "out") id id ccTriv [] pairW6 [recW6] recW6
    rfl (fun _ => ⟨fun c => c, fun _ => rfl⟩) procW6_run
    (List.mem_singleton.mpr rfl)

/-- C10 (implicit claim): the label save path is derived from the CT save
path by substituting `"volume" -> "segmentation"` (line 186); whenever
the substring `"volume"` does not occur in the CT path, both `np.save`
calls target the same file, and since the label array is written second,
it silently overwrites the just-saved CT crop. -/
theorem c10_seg_overwrites_ct (cfg : PipeCfg) (outDir : Str)
    (zCT zS : Volume → Volume) (cc : Coord → Nat) (ls : List Nat)
    (p : SrcPair) (recs : List SaveRec) (r : SaveRec)
    (h : processVolume cfg outDir zCT zS cc ls p = Except.ok recs)
    (hr : r ∈ recs)
    (hnv : occursIn patVol r.ctPath = false) :
    r.segPath = r.ctPath ∧
    lastWrite (writesOf r) r.ctPath = some r.segArr := by
  obtain ⟨hd, hrecs⟩ := processVolume_ok h
  rw [hrecs] at hr
  obtain ⟨e, hemem, hstep⟩ := List.mem_filterMap.mp hr
  obtain ⟨_, _, hsegp, _, _⟩ := stepOf_some hstep
  have heq : r.segPath = r.ctPath := by
    rw [hsegp]
    exact strReplace_of_not_occurs _ hnv
  refine ⟨heq, ?_⟩
  unfold lastWrite writesOf
  rw [heq]
  simp [List.find?]

theorem c10_witness :
    recW7.segPath = recW7.ctPath ∧
    lastWrite (writesOf recW7) recW7.ctPath = some recW7.segArr :=
  c10_seg_overwrites_ct cfgW7 (strL "out") id id ccTriv [] pairW7 [recW7]
    recW7 procW7_run (List.mem_singleton.mpr rfl) (by decide)

theorem processAll_cons_ok {cfg : PipeCfg} {outDir : Str}
    {zCT zS : Volume → Volume} {t : VolInput} {rest : List VolInput}
    {recs : List SaveRec}
    (h : processVolume cfg outDir zCT zS t.cc t.ls t.pair =
      Except.ok recs) :
    processAll cfg outDir zCT zS (t :: rest) =
      (recs ++ (processAll cfg outDir zCT zS rest).1,
        (processAll cfg outDir zCT zS rest).2) := by
  rw [processAll, h]

theorem processAll_cons_error {cfg : PipeCfg} {outDir : Str}
    {zCT zS : Volume → Volume} {t : VolInput} {rest : List VolInput}
    (h : processVolume cfg outDir zCT zS t.cc t.ls t.pair =
      Except.error ()) :
    processAll cfg outDir zCT zS (t :: rest) = ([], true) := by
  rw [processAll, h]

theorem processVolume_error_of_mismatch {cfg : PipeCfg} {outDir : Str}
    {zCT zS : Volume → Volume} {cc : Coord → Nat} {ls : List Nat}
    {p : SrcPair} (hd : p.seg.dims ≠ p.ct.dims) :
    processVolume cfg outDir zCT zS cc ls p = Except.error () := by
  unfold processVolume
  rw [if_neg hd]

theorem processVolume_ok_of_match {cfg : PipeCfg} {outDir : Str}
    {zCT zS : Volume → Volume} {cc : Coord → Nat} {ls : List Nat}
    {p : SrcPair} (hd : p.seg.dims = p.ct.dims) :
    processVolume cfg outDir zCT zS cc ls p =
      Except.ok ((cropsOf cfg cc ls p).enum.filterMap
        (stepOf cfg outDir zCT zS p.base)) := by
  unfold processVolume
  rw [if_pos hd]

/-- C9: a CT/label shape mismatch is fatal for the whole batch — the
failed assert on line 148 halts the run.  The result carries the abort
flag, and the saved output is exactly that of the matching pairs
processed before the bad one: nothing is produced for the mismatched
pair, and no later pair is processed. -/
theorem c9_shape_mismatch_halts (cfg : PipeCfg) (outDir : Str)
    (zCT zS : Volume → Volume) (pre rest : List VolInput) (bad : VolInput)
    (hpre : ∀ t ∈ pre, t.pair.seg.dims = t.pair.ct.dims)
    (hbad : bad.pair.seg.dims ≠ bad.pair.ct.dims) :
    (processAll cfg outDir zCT zS (pre ++ bad :: rest)).2 = true ∧
    (processAll cfg outDir zCT zS (pre ++ bad :: rest)).1 =
      (processAll cfg outDir zCT zS pre).1 := by
  induction pre with
  | nil =>
    rw [List.nil_append, processAll_cons_error
      (processVolume_error_of_mismatch hbad)]
    exact ⟨rfl, rfl⟩
  | cons t pre' ih =>
    have ht : t.pair.seg.dims = t.pair.ct.dims :=
      hpre t (List.mem_cons_self _ _)
    have ih' := ih fun u hu => hpre u (List.mem_cons_of_mem _ hu)
    rw [List.cons_append, processAll_cons_ok (processVolume_ok_of_match ht),
      processAll_cons_ok (processVolume_ok_of_match ht)]
    exact ⟨ih'.1, by rw [ih'.2]⟩

theorem c9_witness :
    (processAll cfgW7 (strL "out") id id ([] ++ badW9 :: [])).2 = true ∧
    (processAll cfgW7 (strL "out") id id ([] ++ badW9 :: [])).1 =
      (processAll cfgW7 (strL "out") id id []).1 :=
  c9_shape_mismatch_halts cfgW7 (strL "out") id id [] [] badW9
    (fun t ht => absurd ht (List.not_mem_nil t)) (by decide)

/-- C8 (amended): for crops of the same source volume, the serializer's
file names coincide exactly when the location tags coincide — the tag
(the per-axis half-extent of the margined box) is the only
disambiguator, and it is not unique across blobs, so two accepted crops
whose margined boxes have equal per-axis sizes collide and the later
write silently overwrites the earlier one. -/
theorem c8_filename_collision_iff (base : Str) (i1 i2 : Nat)
    (loc1 loc2 : Str) (h1 : loc1 ≠ []) (h2 : loc2 ≠ []) :
    fnameFor base i1 loc1 = fnameFor base i2 loc2 ↔ loc1 = loc2 := by
  unfold fnameFor
  rw [if_pos h1, if_pos h2]
  constructor
  · intro h
    exact List.append_cancel_left (List.append_cancel_right h)
  · rintro rfl
    rfl

theorem c8_witness :
    fnameFor (strL "scan") 0 (strL "1-1-1") =
        fnameFor (strL "scan") 1 (strL "1-1-1") ↔
      strL "1-1-1" = strL "1-1-1" :=
  c8_filename_collision_iff (strL "scan") 0 1 (strL "1-1-1")
    (strL "1-1-1") (by decide) (by decide)

/-- A blob with no contaminating occurrences always passes the overlap
test (the allowed fraction is non-negative). -/
theorem rejectedQ_false_of_zero {b : Box3} {cc : Coord → Nat} {l : Nat}
    {allowed : ℚ} (h : otherOccurrences b cc l = 0) (ha : 0 ≤ allowed) :
    rejectedQ b cc l allowed = false := by
  unfold rejectedQ
  rw [h]
  simp only [Nat.cast_zero, zero_div, gt_iff_lt, decide_eq_false_iff_not,
    not_lt]
  exact ha

theorem cc8_accepted : acceptedLabels pair8.seg.dims cc8
    params8.allowedPercOtherBlobs [1, 2] = [1, 2] := by
  have h1 : rejectedQ (tightBox pair8.seg.dims cc8 1) cc8 1
      params8.allowedPercOtherBlobs = false :=
    rejectedQ_false_of_zero (by decide) (by norm_num [params8])
  have h2 : rejectedQ (tightBox pair8.seg.dims cc8 2) cc8 2
      params8.allowedPercOtherBlobs = false :=
    rejectedQ_false_of_zero (by decide) (by norm_num [params8])
  unfold acceptedLabels
  rw [List.filter_cons, List.filter_cons, List.filter_nil, h1, h2]
  rfl

/-- C8 counterexample: this volume yields two accepted, persisted crops
whose CT paths are the same string, so the file names are not pairwise
distinct and the second crop overwrites the first. -/
theorem c8_counterexample :
    ((processAll cfg8 (strL "out") id id [⟨cc8, [1, 2], pair8⟩]).1.map
        SaveRec.ctPath) =
      [strL "out/ct/scan-(1-1-1).npy", strL "out/ct/scan-(1-1-1).npy"] ∧
    ¬ ((processAll cfg8 (strL "out") id id [⟨cc8, [1, 2], pair8⟩]).1.map
        SaveRec.ctPath).Nodup := by
  have hcrops : cropsOf cfg8 cc8 [1, 2] pair8 =
      [1, 2].map fun l =>
        (cropVol (mapVol clipHU pair8.ct)
          (margedBox pair8.seg.dims cc8 l params8.sliceMargins),
         cropVol pair8.seg
          (margedBox pair8.seg.dims cc8 l params8.sliceMargins),
         locStr (margedBox pair8.seg.dims cc8 l params8.sliceMargins)) := by
    show crop_to_boxes_of_interset_cc (mapVol clipHU pair8.ct) pair8.seg
      params8 cc8 [1, 2] = _
    unfold crop_to_boxes_of_interset_cc
    rw [cc8_accepted]
  have hrun : (processAll cfg8 (strL "out") id id
      [⟨cc8, [1, 2], pair8⟩]).1.map SaveRec.ctPath =
      [strL "out/ct/scan-(1-1-1).npy", strL "out/ct/scan-(1-1-1).npy"] := by
    rw [processAll_cons_ok (processVolume_ok_of_match rfl)]
    show (((cropsOf cfg8 cc8 [1, 2] pair8).enum.filterMap
      (stepOf cfg8 (strL "out") id id pair8.base) ++
        (processAll cfg8 (strL "out") id id []).1).map SaveRec.ctPath) = _
    rw [hcrops]
    rfl
  refine ⟨hrun, ?_⟩
  rw [hrun]
  decide

theorem cc3undil_accepted : acceptedLabels labels3.dims cc3undil
    params3.allowedPercOtherBlobs [1, 2] = [1, 2] := by
  have h1 : rejectedQ (tightBox labels3.dims cc3undil 1) cc3undil 1
      params3.allowedPercOtherBlobs = false :=
    rejectedQ_false_of_zero (by decide) (by norm_num [params3])
  have h2 : rejectedQ (tightBox labels3.dims cc3undil 2) cc3undil 2
      params3.allowedPercOtherBlobs = false :=
    rejectedQ_false_of_zero (by decide) (by norm_num [params3])
  unfold acceptedLabels
  rw [List.filter_cons, List.filter_cons, List.filter_nil, h1, h2]
  rfl

theorem cc3dil_accepted : acceptedLabels labels3.dims cc3dil
    params3.allowedPercOtherBlobs [1] = [1] := by
  have h1 : rejectedQ (tightBox labels3.dims cc3dil 1) cc3dil 1
      params3.allowedPercOtherBlobs = false :=
    rejectedQ_false_of_zero (by decide) (by norm_num [params3])
  unfold acceptedLabels
  rw [List.filter_cons, List.filter_nil, h1]
  rfl

/-- C3 (code bug, lines 96-99): although `mask_dilation = 1 > 0`, the
mask handed to component labeling is still the undilated binary mask —
the gap voxel `(0,0,1)` is unset in it even though one dilation
iteration would set it — and consequently the pipeline cuts two crops
(one per undilated component) where labeling the dilated mask would
yield a single crop. -/
theorem c3_dilation_discarded :
    maskUsedForCC labels3 params3 (0, 0, 1) = false ∧
    dilate1 (1, 1, 3) (maskUsedForCC labels3 params3) (0, 0, 1) = true ∧
    (crop_to_boxes_of_interset_cc ct3 labels3 params3 cc3undil
      [1, 2]).length = 2 ∧
    (crop_to_boxes_of_interset_cc ct3 labels3 params3 cc3dil
      [1]).length = 1 := by
  refine ⟨rfl, rfl, ?_, ?_⟩
  · unfold crop_to_boxes_of_interset_cc
    rw [cc3undil_accepted]
    rfl
  · unfold crop_to_boxes_of_interset_cc
    rw [cc3dil_accepted]
    rfl
